import Mathlib

/-!
Verification of the World state-synchronization core of Blockheads-MessageBot.

This file is a shallow embedding of src/world.ts.  Each definition carries a
comment pointing at the source lines it embeds.  JavaScript strings are
modelled as Lean String; String.prototype.toLocaleUpperCase is modelled as
per-character ASCII uppercasing (Char.toUpper), which agrees with the
JavaScript function on the ASCII player names, command tokens and address
strings the program handles.  JavaScript objects used as string-keyed
dictionaries (this._players) and Map (this._commands) are modelled as
association lists.  Promises are modelled explicitly: each call of the remote
api allocates a promise identifier whose state (pending / resolved /
rejected) lives in the world state, and the synchronous body of a method is a
state transition.  Reference aliasing of JavaScript arrays, where a claim is
about mutation, is modelled by a store of arrays addressed by references.
-/

namespace World

/-! ## Canonicalization

Source: world.ts lines 38, 50, 171, 184, 197 all canonicalize a name or
command token with name.toLocaleUpperCase(). -/

/-- Model of s.toLocaleUpperCase(): uppercase every character. -/
def canonName (s : String) : String := ⟨s.data.map Char.toUpper⟩

/-! ## Association lists

Model for the string-keyed dictionary this._players (world.ts line 29) and
the Map this._commands (world.ts line 30). -/

/-- Lookup in an association list (JavaScript obj[key] / map.get(key)). -/
def alookup {β : Type} : List (String × β) → String → Option β
  | [], _ => none
  | (k', v) :: rest, k => if k' = k then some v else alookup rest k

/-- Update in an association list (JavaScript obj[key] = v / map.set(key, v)):
replaces the binding if the key is present, otherwise appends it. -/
def aset {β : Type} : List (String × β) → String → β → List (String × β)
  | [], k, v => [(k, v)]
  | (k', v') :: rest, k, v =>
      if k' = k then (k, v) :: rest else (k', v') :: aset rest k v

/-! ## Player registry

Source: world.ts line 29 (this._players), lines 37-44 (the onJoin handler),
lines 170-173 (getPlayer), lines 106-117 (the overview owner marking). -/

/-- A stored player record.  Fields follow the PlayerInfo shape used by
world.ts: ip (last address), ips (address history), joins (join count) and
the owner flag (a field that is absent in JavaScript is modelled as false). -/
structure PlayerInfo where
  ip : String
  ips : List String
  joins : Nat
  owner : Bool
deriving Repr, DecidableEq

/-- The zero-valued record used by world.ts lines 110 and 172 when no record
exists: ip is the empty string, ips is empty, joins is zero. -/
def emptyInfo : PlayerInfo := { ip := "", ips := [], joins := 0, owner := false }

/-- One join event applied to the (possibly absent) stored record, following
world.ts lines 39-42: get-or-create a record with ip, ips = [ip] and
joins = 0, then joins++, ip = ip, and push ip onto ips when not already
present. -/
def joinStep (prev : Option PlayerInfo) (ip : String) : PlayerInfo :=
  let p := prev.getD { ip := ip, ips := [ip], joins := 0, owner := false }
  { p with
    joins := p.joins + 1
    ip := ip
    ips := if p.ips.contains ip then p.ips else p.ips ++ [ip] }

/-- The onJoin handler's effect on this._players (world.ts lines 37-44):
the name is canonicalized and the record inserted or updated in place. -/
def recordJoin (players : List (String × PlayerInfo)) (name ip : String) :
    List (String × PlayerInfo) :=
  aset players (canonName name) (joinStep (alookup players (canonName name)) ip)

/-- A sequence of join events (name, address) processed in arrival order. -/
def processJoins (players : List (String × PlayerInfo))
    (events : List (String × String)) : List (String × PlayerInfo) :=
  events.foldl (fun ps e => recordJoin ps e.1 e.2) players

/-- Folding the per-event record update over the addresses only. -/
def joinAllOpt (o : Option PlayerInfo) (ips : List String) : Option PlayerInfo :=
  ips.foldl (fun acc ip => some (joinStep acc ip)) o

/-! ## Server lists and players

Source: world.ts line 28 (the _lists default), lines 170-173 (getPlayer). -/

/-- The four server lists (blockheads-api WorldLists). -/
structure WorldLists where
  adminlist : List String
  modlist : List String
  whitelist : List String
  blacklist : List String
deriving Repr, DecidableEq

/-- The initial value of this._lists (world.ts line 28): four empty lists. -/
def defaultLists : WorldLists :=
  { adminlist := [], modlist := [], whitelist := [], blacklist := [] }

/-- A Player as constructed by getPlayer (world.ts line 172): the
canonicalized name, the stored record (or the zero-valued default) and the
current lists snapshot.  src/player.ts is not among the provided sources, so
the Player is modelled as this triple. -/
structure Player where
  name : String
  info : PlayerInfo
  lists : WorldLists
deriving Repr, DecidableEq

/-- Embedding of getPlayer (world.ts lines 170-173): canonicalize the name,
look it up in this._players, fall back to the zero-valued record. -/
def getPlayer (players : List (String × PlayerInfo)) (lists : WorldLists)
    (name : String) : Player :=
  { name := canonName name
    info := (alookup players (canonName name)).getD emptyInfo
    lists := lists }

/-- Modelled from the spec: src/player.ts is not among the provided sources.
Per the spec's PlayerRecord, isOwner reports the record's owner flag. -/
def Player.isOwner (p : Player) : Bool := p.info.owner

/-- The owner-marking side effect of a successful overview fetch
(world.ts lines 110-111): the record is created or updated under the RAW
overview.owner key (no canonicalization on this path) and its owner flag is
set. -/
def markOwnerRaw (players : List (String × PlayerInfo)) (owner : String) :
    List (String × PlayerInfo) :=
  let p := (alookup players owner).getD emptyInfo
  aset players owner { p with owner := true }

/-- The online-merge side effect of a successful overview fetch
(world.ts line 109): every reported online name is pushed onto this._online
unless already present. -/
def mergeOnline (online : List String) (names : List String) : List String :=
  names.foldl (fun acc n => if acc.contains n then acc else acc ++ [n]) online

/-! ## The overview cache slot as a promise state machine

Source: world.ts lines 15-19 (this._cache), lines 106-117 (getOverview).
Each call of this._api.getOverview() allocates the next promise identifier;
fetchPromises records, in allocation order, the state of the promise chain
built on each api call (the api promise followed by the side-effecting then
of lines 108-113).  cacheOverview is this._cache.overview: the identifier of
the currently memoized promise, if any.  A caller of getOverview awaits the
identifier the call returns (through the copying then of line 116, which does
not change the value). -/

/-- The world overview value, reduced to the fields world.ts reads:
the owner name and the online names. -/
structure OverviewVal where
  owner : String
  online : List String
deriving Repr, DecidableEq

/-- State of one memoized fetch promise. -/
inductive PromiseState where
  | pending
  | resolved (o : OverviewVal)
  | rejected
deriving Repr, DecidableEq

/-- The parts of the World state touched by getOverview. -/
structure OvState where
  cacheOverview : Option Nat
  fetchPromises : List PromiseState
  online : List String
  players : List (String × PlayerInfo)
deriving Repr, DecidableEq

/-- World state before any fetch, with an empty stored-player registry. -/
def initialOvState : OvState :=
  { cacheOverview := none, fetchPromises := [], online := [], players := [] }

/-- The synchronous body of getOverview (world.ts lines 106-117): when the
cache slot is empty or refresh is set, call the api (allocating a new pending
promise) and memoize it; the caller is handed the memoized promise either
way. -/
def getOverviewStep (s : OvState) (refresh : Bool) : OvState × Nat :=
  match s.cacheOverview, refresh with
  | some p, false => (s, p)
  | _, _ =>
      ({ s with
          cacheOverview := some s.fetchPromises.length
          fetchPromises := s.fetchPromises ++ [PromiseState.pending] },
        s.fetchPromises.length)

/-- A sequence of getOverview calls, returning the promise identifier each
caller awaits. -/
def runGetCalls (s : OvState) (flags : List Bool) : OvState × List Nat :=
  match flags with
  | [] => (s, [])
  | b :: rest =>
      let (s', i) := getOverviewStep s b
      let (s'', is) := runGetCalls s' rest
      (s'', i :: is)

/-- Settlement of api fetch number i.  On success (some value) the then
callback of world.ts lines 108-113 runs exactly once: online names are merged
into this._online, the owner record is created or updated under the raw owner
key, and the promise resolves with the overview.  On failure (none) the
promise chain rejects and no side effect runs. -/
def resolveOverviewFetch (s : OvState) (i : Nat) (res : Option OverviewVal) :
    OvState :=
  match s.fetchPromises.get? i with
  | some PromiseState.pending =>
      match res with
      | some o =>
          { s with
            fetchPromises := s.fetchPromises.set i (PromiseState.resolved o)
            online := mergeOnline s.online o.online
            players := markOwnerRaw s.players o.owner }
      | none => { s with fetchPromises := s.fetchPromises.set i PromiseState.rejected }
  | _ => s

/-- What a caller awaiting promise i eventually observes. -/
def observeOverview (s : OvState) (i : Nat) : PromiseState :=
  (s.fetchPromises.get? i).getD PromiseState.pending

/-! ## Command registry and dispatch

Source: world.ts line 30 (this._commands), lines 46-53 (the onMessage
handler), lines 183-189 (addCommand).  Handlers are modelled as opaque
numeric identifiers. -/

/-- Embedding of addCommand (world.ts lines 183-189): uppercase the token;
if already registered, throw (the error is returned as some message and the
registry is handed back unchanged, since the throw happens before set);
otherwise register. -/
def addCommand (cmds : List (String × Nat)) (command : String) (h : Nat) :
    List (String × Nat) × Option String :=
  let key := canonName command
  match alookup cmds key with
  | some _ => (cmds, some ("The command \"" ++ key ++ "\" has already been added."))
  | none => (aset cmds key h, none)

/-- Embedding of the command-shape test and extraction of world.ts
lines 48-49: the tested shape is a slash immediately followed by a non-space
character; extraction takes the maximal non-space token after the slash, then
drops one optional space, and the remainder is the argument string.  Messages
are single log lines (the chat watcher parses the log line by line), so the
dot of the extraction pattern never meets a line terminator and extraction
succeeds on every message that passes the shape test. -/
def parseCommand (message : String) : Option (String × String) :=
  match message.data with
  | '/' :: c :: rest =>
      if c = ' ' then none
      else
        let tok : List Char := (c :: rest).takeWhile (fun ch => ch ≠ ' ')
        let after : List Char := (c :: rest).dropWhile (fun ch => ch ≠ ' ')
        let args : List Char :=
          match after with
          | ' ' :: r => r
          | r => r
        some (⟨tok⟩, ⟨args⟩)
  | _ => none

/-- Observable effects of one incoming chat message. -/
inductive MsgEffect where
  | enriched (p : Player) (message : String)
  | invoke (handler : Nat) (p : Player) (args : String)
deriving Repr, DecidableEq

/-- The onMessage handler (world.ts lines 46-53): the enriched message event
is dispatched unconditionally; then, when the message has command shape and
the uppercased token is registered, that handler is invoked with the resolved
player and the argument remainder. -/
def onMessageEffects (players : List (String × PlayerInfo)) (lists : WorldLists)
    (cmds : List (String × Nat)) (name message : String) : List MsgEffect :=
  MsgEffect.enriched (getPlayer players lists name) message ::
    (match parseCommand message with
     | none => []
     | some (tok, args) =>
         match alookup cmds (canonName tok) with
         | some h => [MsgEffect.invoke h (getPlayer players lists name) args]
         | none => [])

/-! ## The lists cache and setLists

Source: world.ts lines 122-134 (getLists), lines 142-146 (setLists).  The
remote api is modelled by the server field: a lists fetch returns the server
lists, and a successful submit makes the server hold exactly the submitted
lists.  The cache field is this._cache.lists, restricted to the settled
successful case that setLists awaits. -/

/-- A partial lists update (TypeScript Partial of WorldLists): a list that is
absent from the update is not changed. -/
structure PartialLists where
  adminlist : Option (List String)
  modlist : Option (List String)
  whitelist : Option (List String)
  blacklist : Option (List String)
deriving Repr, DecidableEq

/-- The shallow object merge of world.ts line 144: keys present in the
partial update override the current lists. -/
def mergeLists (cur : WorldLists) (p : PartialLists) : WorldLists :=
  { adminlist := p.adminlist.getD cur.adminlist
    modlist := p.modlist.getD cur.modlist
    whitelist := p.whitelist.getD cur.whitelist
    blacklist := p.blacklist.getD cur.blacklist }

/-- The lists cache slot together with the remote server's lists. -/
structure ListsState where
  cache : Option WorldLists
  server : WorldLists
deriving Repr, DecidableEq

/-- Awaited getLists() with default refresh (world.ts lines 122-134): serve
the cached lists when present, otherwise fetch from the server and memoize. -/
def getListsRun (s : ListsState) : ListsState × WorldLists :=
  match s.cache with
  | some l => (s, l)
  | none => ({ s with cache := some s.server }, s.server)

/-- Awaited setLists (world.ts lines 142-146): read the current lists
(fetching if needed), submit the shallow merge of the partial update over
them, and on success refresh the cache (getLists(true) refetches from the
server, which now holds the submitted lists).  When the submit rejects, the
await throws: the refresh never runs and the failure propagates (returned
flag false). -/
def setListsRun (s : ListsState) (p : PartialLists) (submitOk : Bool) :
    ListsState × Bool :=
  let (s₁, current) := getListsRun s
  let merged := mergeLists current p
  if submitOk then
    ({ cache := some merged, server := merged }, true)
  else
    (s₁, false)

/-! ## A store of arrays: reference aliasing for the copy claims

Source: world.ts line 93 ([...this._online]), line 116 (the shallow spread
copy of the cached overview), lines 128-133 (the per-list array copies of
getLists), line 156 (the slice-and-copy of getLogs).  A JavaScript array is a
reference into a store; a spread copy of an array allocates a fresh
reference with the same contents, while a spread copy of an OBJECT copies
only its fields, so an array-valued field still holds the same reference.
Log entries are modelled by their raw line, an immutable value, so the entry
copy of line 156 leaves the array copy as the relevant allocation. -/

/-- A reference to an array of strings. -/
abbrev Ref := Nat

/-- The store of all allocated string arrays. -/
abbrev Store := List (List String)

/-- Contents of the array behind a reference. -/
def readRef (σ : Store) (r : Ref) : List String := (σ.get? r).getD []

/-- In-place mutation of the array behind a reference. -/
def writeRef (σ : Store) (r : Ref) (v : List String) : Store := σ.set r v

/-- Allocation of a fresh array with the given contents. -/
def allocRef (σ : Store) (v : List String) : Store × Ref := (σ ++ [v], σ.length)

/-- A WorldOverview object, reduced to the fields the copy claims are about:
the owner (an immutable string field) and the online array (a reference). -/
structure OverviewObj where
  owner : String
  online : Ref
deriving Repr, DecidableEq

/-- The spread copy of world.ts line 116: a fresh object with the SAME field
values, so the online field still holds the same array reference. -/
def copyOverviewObj (o : OverviewObj) : OverviewObj :=
  { owner := o.owner, online := o.online }

/-- The observable value of an overview: its owner and the contents of its
online array. -/
structure OverviewRead where
  owner : String
  online : List String
deriving Repr, DecidableEq

/-- Reading an overview object out of the store. -/
def readOverview (σ : Store) (o : OverviewObj) : OverviewRead :=
  { owner := o.owner, online := readRef σ o.online }

/-- A WorldLists object: four array references. -/
structure ListsObj where
  adminlist : Ref
  modlist : Ref
  whitelist : Ref
  blacklist : Ref
deriving Repr, DecidableEq

/-- The copying return of getLists (world.ts lines 128-133): each of the four
arrays is spread into a freshly allocated array. -/
def copyListsObj (σ : Store) (l : ListsObj) : Store × ListsObj :=
  let (σ₁, a) := allocRef σ (readRef σ l.adminlist)
  let (σ₂, m) := allocRef σ₁ (readRef σ l.modlist)
  let (σ₃, w) := allocRef σ₂ (readRef σ l.whitelist)
  let (σ₄, b) := allocRef σ₃ (readRef σ l.blacklist)
  (σ₄, { adminlist := a, modlist := m, whitelist := w, blacklist := b })

/-- Reading a lists object out of the store. -/
def readLists (σ : Store) (l : ListsObj) : WorldLists :=
  { adminlist := readRef σ l.adminlist
    modlist := readRef σ l.modlist
    whitelist := readRef σ l.whitelist
    blacklist := readRef σ l.blacklist }

/-- The copying return of getLogs (world.ts line 156): the cached array is
sliced into a fresh array (entries modelled as immutable raw lines). -/
def copyLogs (σ : Store) (logs : Ref) : Store × Ref := allocRef σ (readRef σ logs)

/-- The online getter (world.ts lines 92-94): a fresh array spread-copied
from this._online. -/
def onlineCopy (σ : Store) (online : Ref) : Store × Ref :=
  allocRef σ (readRef σ online)

/-! ## Helper lemmas -/

theorem toNat_ofNat_small (n : Nat) (h : n < 0xd800) : (Char.ofNat n).toNat = n := by
  have hv : n.isValidChar := Or.inl h
  simp only [Char.ofNat, hv, dif_pos, Char.ofNatAux, Char.toNat, UInt32.toNat,
    BitVec.toNat_ofNatLt]

theorem toUpper_idem (c : Char) : c.toUpper.toUpper = c.toUpper := by
  unfold Char.toUpper
  by_cases h : c.toNat ≥ 97 ∧ c.toNat ≤ 122
  · rw [if_pos h, if_neg]
    rw [toNat_ofNat_small _ (by omega)]
    omega
  · rw [if_neg h, if_neg h]

theorem canonName_idem (s : String) : canonName (canonName s) = canonName s := by
  simp only [canonName, List.map_map]
  congr 1
  exact List.map_congr_left fun c _ => toUpper_idem c

theorem alookup_aset_self {β : Type} (ps : List (String × β)) (k : String) (v : β) :
    alookup (aset ps k v) k = some v := by
  induction ps with
  | nil => simp [aset, alookup]
  | cons hd tl ih =>
    obtain ⟨k', v'⟩ := hd
    by_cases h : k' = k
    · simp [aset, alookup, h]
    · simp [aset, alookup, h, ih]

theorem alookup_aset_ne {β : Type} (ps : List (String × β)) (k k' : String) (v : β)
    (h : k' ≠ k) : alookup (aset ps k v) k' = alookup ps k' := by
  induction ps with
  | nil => simp [aset, alookup, Ne.symm h]
  | cons hd tl ih =>
    obtain ⟨k₀, v₀⟩ := hd
    by_cases h₀ : k₀ = k
    · subst h₀
      simp only [aset, if_pos rfl, alookup, if_neg (Ne.symm h)]
    · simp only [aset, if_neg h₀, alookup]
      by_cases h₁ : k₀ = k'
      · simp [h₁]
      · simp [h₁, ih]

theorem processJoins_alookup (k : String) (events : List (String × String)) :
    ∀ players : List (String × PlayerInfo), (∀ e ∈ events, canonName e.1 = k) →
      alookup (processJoins players events) k =
        joinAllOpt (alookup players k) (events.map Prod.snd) := by
  induction events with
  | nil => intro players _; rfl
  | cons e rest ih =>
    intro players hk
    have hek : canonName e.1 = k := hk e (List.mem_cons_self e rest)
    have hrest : ∀ e' ∈ rest, canonName e'.1 = k :=
      fun e' he' => hk e' (List.mem_cons_of_mem e he')
    show alookup (processJoins (recordJoin players e.1 e.2) rest) k = _
    rw [ih _ hrest]
    have : alookup (recordJoin players e.1 e.2) k =
        some (joinStep (alookup players k) e.2) := by
      unfold recordJoin
      rw [hek, alookup_aset_self]
    rw [this]
    rfl

theorem joinAllOpt_joins (ips : List String) :
    ∀ info : PlayerInfo, ∃ info' : PlayerInfo,
      joinAllOpt (some info) ips = some info' ∧
      info'.joins = info.joins + ips.length := by
  induction ips with
  | nil => intro info; exact ⟨info, rfl, by simp⟩
  | cons ip rest ih =>
    intro info
    obtain ⟨info', h1, h2⟩ := ih (joinStep (some info) ip)
    refine ⟨info', h1, ?_⟩
    simp only [joinStep, Option.getD_some] at h2
    simp [h2, List.length_cons]
    omega

theorem joinStep_ips_mem (info : PlayerInfo) (ip a : String) :
    a ∈ (joinStep (some info) ip).ips ↔ a ∈ info.ips ∨ a = ip := by
  simp only [joinStep, Option.getD_some]
  by_cases h : info.ips.contains ip
  · rw [if_pos h]
    have hip : ip ∈ info.ips := by simpa using h
    constructor
    · exact fun ha => Or.inl ha
    · rintro (ha | rfl)
      · exact ha
      · exact hip
  · rw [if_neg h]
    simp [List.mem_append]

theorem joinStep_nodup (info : PlayerInfo) (ip : String) (h : info.ips.Nodup) :
    (joinStep (some info) ip).ips.Nodup := by
  simp only [joinStep, Option.getD_some]
  by_cases hc : info.ips.contains ip
  · rw [if_pos hc]; exact h
  · rw [if_neg hc]
    have hip : ip ∉ info.ips := by simpa using hc
    simpa [List.nodup_append] using ⟨h, hip⟩

theorem joinStep_ip (info : PlayerInfo) (ip : String) :
    (joinStep (some info) ip).ip = ip := rfl

theorem joinAllOpt_ips (ips : List String) :
    ∀ info : PlayerInfo, ∃ info' : PlayerInfo,
      joinAllOpt (some info) ips = some info' ∧
      (info.ips.Nodup → info'.ips.Nodup) ∧
      (∀ a, a ∈ info'.ips ↔ a ∈ info.ips ∨ a ∈ ips) ∧
      info'.ip = ips.getLastD info.ip := by
  induction ips with
  | nil =>
    intro info
    exact ⟨info, rfl, fun h => h, fun a => by simp, by simp [List.getLastD]⟩
  | cons ip rest ih =>
    intro info
    obtain ⟨info', h1, h3, h4, h5⟩ := ih (joinStep (some info) ip)
    refine ⟨info', h1, ?_, ?_, ?_⟩
    · exact fun h => h3 (joinStep_nodup info ip h)
    · intro a
      rw [h4 a, joinStep_ips_mem]
      simp only [List.mem_cons]
      tauto
    · rw [h5, joinStep_ip, List.getLastD_cons]

theorem readRef_writeRef_ne (σ : Store) (r r' : Ref) (v : List String)
    (h : r ≠ r') : readRef (writeRef σ r v) r' = readRef σ r' := by
  simp [readRef, writeRef, List.get?_eq_getElem?, List.getElem?_set_ne h]

theorem readRef_append_lt (σ ext : Store) (r : Ref) (h : r < σ.length) :
    readRef (σ ++ ext) r = readRef σ r := by
  simp [readRef, List.get?_eq_getElem?, List.getElem?_append_left h]

theorem readRef_append_at (σ : Store) (ext : Store) (i : Nat) :
    readRef (σ ++ ext) (σ.length + i) = readRef ext i := by
  simp only [readRef, List.get?_eq_getElem?]
  rw [List.getElem?_append_right (Nat.le_add_right _ _)]
  simp

theorem copyListsObj_eq (σ : Store) (l : ListsObj)
    (hm : l.modlist < σ.length) (hw : l.whitelist < σ.length)
    (hb : l.blacklist < σ.length) :
    copyListsObj σ l =
      (σ ++ [readRef σ l.adminlist, readRef σ l.modlist,
             readRef σ l.whitelist, readRef σ l.blacklist],
       { adminlist := σ.length, modlist := σ.length + 1,
         whitelist := σ.length + 2, blacklist := σ.length + 3 }) := by
  have h1 : readRef (σ ++ [readRef σ l.adminlist]) l.modlist = readRef σ l.modlist :=
    readRef_append_lt _ _ _ hm
  have hl1 : l.whitelist < (σ ++ [readRef σ l.adminlist]).length := by
    simp only [List.length_append, List.length_cons, List.length_nil]
    exact Nat.lt_succ_of_lt hw
  have h2 : readRef (σ ++ [readRef σ l.adminlist] ++ [readRef σ l.modlist])
      l.whitelist = readRef σ l.whitelist := by
    rw [readRef_append_lt _ _ _ hl1, readRef_append_lt _ _ _ hw]
  have hl2 : l.blacklist < (σ ++ [readRef σ l.adminlist]).length := by
    simp only [List.length_append, List.length_cons, List.length_nil]
    exact Nat.lt_succ_of_lt hb
  have hl3 : l.blacklist <
      (σ ++ [readRef σ l.adminlist] ++ [readRef σ l.modlist]).length := by
    simp only [List.length_append, List.length_cons, List.length_nil]
    exact Nat.lt_succ_of_lt (Nat.lt_succ_of_lt hb)
  have h3 : readRef (σ ++ [readRef σ l.adminlist] ++ [readRef σ l.modlist]
      ++ [readRef σ l.whitelist]) l.blacklist = readRef σ l.blacklist := by
    rw [readRef_append_lt _ _ _ hl3, readRef_append_lt _ _ _ hl2,
      readRef_append_lt _ _ _ hb]
  simp only [copyListsObj, allocRef, h1, h2, h3]
  refine congrArg₂ Prod.mk ?_ ?_
  · simp [List.append_assoc]
  · simp [List.length_append]

theorem readLists_frame (σ : Store) (l : ListsObj) (r : Ref) (v : List String)
    (ha : r ≠ l.adminlist) (hm : r ≠ l.modlist) (hw : r ≠ l.whitelist)
    (hb : r ≠ l.blacklist) :
    readLists (writeRef σ r v) l = readLists σ l := by
  simp [readLists, readRef_writeRef_ne _ _ _ _ ha, readRef_writeRef_ne _ _ _ _ hm,
    readRef_writeRef_ne _ _ _ _ hw, readRef_writeRef_ne _ _ _ _ hb]

theorem readLists_append (σ ext : Store) (l : ListsObj)
    (ha : l.adminlist < σ.length) (hm : l.modlist < σ.length)
    (hw : l.whitelist < σ.length) (hb : l.blacklist < σ.length) :
    readLists (σ ++ ext) l = readLists σ l := by
  simp [readLists, readRef_append_lt _ _ _ ha, readRef_append_lt _ _ _ hm,
    readRef_append_lt _ _ _ hw, readRef_append_lt _ _ _ hb]

/-! ## Claim theorems -/

/-- C4: for every sequence of N join events whose names canonicalize to the
same identity, starting from a registry with no record for that identity, the
record's join count afterwards equals N, its address history contains exactly
the set of distinct addresses passed (no duplicates), and its last address is
the address of the last join. -/
theorem join_accounting (k : String) (events : List (String × String))
    (players : List (String × PlayerInfo))
    (hk : ∀ e ∈ events, canonName e.1 = k)
    (h0 : alookup players k = none)
    (hne : events ≠ []) :
    ∃ info : PlayerInfo,
      alookup (processJoins players events) k = some info ∧
      info.joins = events.length ∧
      info.ips.Nodup ∧
      (∀ a, a ∈ info.ips ↔ a ∈ events.map Prod.snd) ∧
      some info.ip = (events.map Prod.snd).getLast? := by
  obtain ⟨e, rest, rfl⟩ := List.exists_cons_of_ne_nil hne
  rw [processJoins_alookup k (e :: rest) players hk, h0]
  have hfirst : joinAllOpt none (List.map Prod.snd (e :: rest)) =
      joinAllOpt (some (joinStep none e.2)) (rest.map Prod.snd) := rfl
  rw [hfirst]
  set info₀ : PlayerInfo := joinStep none e.2 with hinfo₀
  have hi₀ : info₀ = { ip := e.2, ips := [e.2], joins := 1, owner := false } := by
    rw [hinfo₀]
    simp [joinStep]
  obtain ⟨iJ, hJ1, hJ2⟩ := joinAllOpt_joins (rest.map Prod.snd) info₀
  obtain ⟨iI, hI1, hI2, hI3, hI4⟩ := joinAllOpt_ips (rest.map Prod.snd) info₀
  have hsame : iJ = iI := by
    rw [hJ1] at hI1
    exact Option.some.inj hI1
  subst hsame
  refine ⟨iJ, hJ1, ?_, ?_, ?_, ?_⟩
  · rw [hJ2, hi₀]
    simp
    omega
  · exact hI2 (by rw [hi₀]; simp)
  · intro a
    rw [hI3 a, hi₀]
    simp
  · rw [hI4, hi₀]
    simp only [List.map_cons, List.getLast?_cons, List.getLastD_eq_getLast?]

/-- C4 witness: three joins under case variants of one name, two distinct
addresses, the second address repeated. -/
theorem join_accounting_witness :
    (∀ e ∈ [("Alice", "1.1"), ("ALICE", "2.2"), ("alice", "1.1")],
        canonName e.1 = "ALICE") ∧
    (∃ info : PlayerInfo,
      alookup (processJoins [] [("Alice", "1.1"), ("ALICE", "2.2"), ("alice", "1.1")])
          "ALICE" = some info ∧
      info.joins = [("Alice", "1.1"), ("ALICE", "2.2"), ("alice", "1.1")].length ∧
      info.ips.Nodup ∧
      (∀ a, a ∈ info.ips ↔
        a ∈ [("Alice", "1.1"), ("ALICE", "2.2"), ("alice", "1.1")].map Prod.snd) ∧
      some info.ip =
        ([("Alice", "1.1"), ("ALICE", "2.2"), ("alice", "1.1")].map Prod.snd).getLast?) :=
  ⟨by decide,
   join_accounting "ALICE" [("Alice", "1.1"), ("ALICE", "2.2"), ("alice", "1.1")] []
     (by decide) (by decide) (by decide)⟩

/-- C9: canonicalization is idempotent and case-insensitive: any two names
with the same canonical form resolve to the same player record through
getPlayer, and canonicalizing an already-canonical name changes nothing. -/
theorem canonicalization_case_insensitive :
    (∀ s : String, canonName (canonName s) = canonName s) ∧
    (∀ (players : List (String × PlayerInfo)) (lists : WorldLists) (x y : String),
      canonName x = canonName y →
      getPlayer players lists x = getPlayer players lists y) ∧
    (∀ (players : List (String × PlayerInfo)) (lists : WorldLists),
      getPlayer players lists "Alice" = getPlayer players lists "ALICE") := by
  have hsame : ∀ (players : List (String × PlayerInfo)) (lists : WorldLists)
      (x y : String), canonName x = canonName y →
      getPlayer players lists x = getPlayer players lists y := by
    intro players lists x y hxy
    unfold getPlayer
    rw [hxy]
  exact ⟨canonName_idem, hsame, fun players lists => hsame players lists _ _ (by decide)⟩

/-- C9 witness: a mixed-case and an upper-case spelling of one name resolve
to the same player. -/
theorem canonicalization_case_insensitive_witness :
    canonName "aLiCe" = canonName "ALICE" ∧
    getPlayer [] defaultLists "aLiCe" = getPlayer [] defaultLists "ALICE" :=
  ⟨by decide,
   canonicalization_case_insensitive.2.1 [] defaultLists "aLiCe" "ALICE" (by decide)⟩

/-- C3 (code bug): after a successful overview fetch reporting owner Steve,
the owner flag is stored under the raw key Steve (world.ts lines 110-111)
while getPlayer looks up the canonicalized key STEVE (line 171), so
getPlayer of any case variant of the owner name reports isOwner = false,
contrary to the claim (and to the spec, whose design notes flag exactly this
raw-key path as an inconsistency to be repaired). -/
theorem owner_marking_raw_key_bug :
    (let s := resolveOverviewFetch (getOverviewStep initialOvState false).1 0
        (some { owner := "Steve", online := [] })
     observeOverview s 0 =
        PromiseState.resolved { owner := "Steve", online := [] } ∧
     alookup s.players "Steve" = some { emptyInfo with owner := true } ∧
     (getPlayer s.players defaultLists "steve").isOwner = false ∧
     (getPlayer s.players defaultLists "Steve").isOwner = false ∧
     (getPlayer s.players defaultLists "STEVE").isOwner = false) := by decide

/-- C7: registering a token that is already registered under a
case-insensitively equal token raises the duplicate-command error
immediately, leaves the registry unchanged, and the originally registered
handler remains the one found by dispatch lookup. -/
theorem duplicate_command_registration (cmds : List (String × Nat))
    (t t' : String) (h h₀ : Nat)
    (heq : canonName t' = canonName t)
    (hreg : alookup cmds (canonName t) = some h₀) :
    (addCommand cmds t' h).1 = cmds ∧
    (addCommand cmds t' h).2 =
      some ("The command \"" ++ canonName t' ++ "\" has already been added.") ∧
    alookup (addCommand cmds t' h).1 (canonName t) = some h₀ := by
  unfold addCommand
  rw [heq]
  simp [hreg]

/-- C7 witness: re-registering kick (as Kick) with a new handler fails and
the original handler stays registered. -/
theorem duplicate_command_registration_witness :
    canonName "Kick" = canonName "kick" ∧
    alookup [("KICK", 7)] (canonName "kick") = some 7 ∧
    ((addCommand [("KICK", 7)] "Kick" 9).1 = [("KICK", 7)] ∧
     (addCommand [("KICK", 7)] "Kick" 9).2 =
       some ("The command \"" ++ canonName "Kick" ++ "\" has already been added.") ∧
     alookup (addCommand [("KICK", 7)] "Kick" 9).1 (canonName "kick") = some 7) :=
  ⟨by decide, by decide,
   duplicate_command_registration [("KICK", 7)] "kick" "Kick" 9 7 (by decide) (by decide)⟩

/-- C1 counterexample: two getOverview calls made while the first remote
fetch is still outstanding, the second with refresh = true, issue TWO remote
fetches and await two different pending outcomes, so the claim's
single-flight guarantee does not hold whatever the callers' refresh flags. -/
theorem getOverview_refresh_second_fetch_cex :
    runGetCalls initialOvState [false, true] =
      ({ cacheOverview := some 1
         fetchPromises := [PromiseState.pending, PromiseState.pending]
         online := []
         players := [] }, [0, 1]) ∧
    (runGetCalls initialOvState [false, true]).1.fetchPromises.length = 2 ∧
    (runGetCalls initialOvState [false, true]).2 ≠ [0, 0] := by decide

/-- C1 (amended): while a fetch is outstanding, every getOverview caller
whose refresh flag is false receives and awaits that same single pending
outcome and no further remote fetch is issued; a refresh = true call instead
issues a new fetch.  In particular two concurrent getOverview() calls with
the default flag cause exactly one remote fetch. -/
theorem getOverview_single_flight_amended :
    (∀ (s : OvState) (p : Nat) (flags : List Bool),
      s.cacheOverview = some p → (∀ b ∈ flags, b = false) →
      runGetCalls s flags = (s, List.replicate flags.length p)) ∧
    (∀ n : Nat,
      runGetCalls initialOvState (List.replicate (n + 1) false) =
        ({ cacheOverview := some 0
           fetchPromises := [PromiseState.pending]
           online := []
           players := [] },
         List.replicate (n + 1) 0)) := by
  have hfalse : ∀ (s : OvState) (p : Nat) (flags : List Bool),
      s.cacheOverview = some p → (∀ b ∈ flags, b = false) →
      runGetCalls s flags = (s, List.replicate flags.length p) := by
    intro s p flags hp hb
    induction flags with
    | nil => simp [runGetCalls]
    | cons b rest ih =>
      have hb0 : b = false := hb b (List.mem_cons_self b rest)
      subst hb0
      have hstep : getOverviewStep s false = (s, p) := by
        unfold getOverviewStep
        rw [hp]
      rw [List.length_cons, List.replicate_succ]
      show (let (s', i) := getOverviewStep s false
            let (s'', is) := runGetCalls s' rest
            (s'', i :: is)) = (s, p :: List.replicate rest.length p)
      rw [hstep]
      have := ih (fun b hb' => hb b (List.mem_cons_of_mem _ hb'))
      simp only [this]
  refine ⟨hfalse, ?_⟩
  intro n
  rw [List.replicate_succ]
  have hstep : getOverviewStep initialOvState false =
      ({ cacheOverview := some 0
         fetchPromises := [PromiseState.pending]
         online := []
         players := [] }, 0) := by decide
  show (let (s', i) := getOverviewStep initialOvState false
        let (s'', is) := runGetCalls s' (List.replicate n false)
        (s'', i :: is)) = _
  rw [hstep]
  have := hfalse
    { cacheOverview := some 0
      fetchPromises := [PromiseState.pending]
      online := []
      players := [] } 0 (List.replicate n false) rfl
    (fun b hb => by simpa using List.eq_of_mem_replicate hb)
  simp only [this, List.length_replicate, List.replicate_succ]

/-- C1 amended witness: two default-flag calls while the fetch is pending
collapse onto promise 0 and leave a single issued fetch. -/
theorem getOverview_single_flight_amended_witness :
    runGetCalls initialOvState (List.replicate (1 + 1) false) =
      ({ cacheOverview := some 0
         fetchPromises := [PromiseState.pending]
         online := []
         players := [] },
       List.replicate (1 + 1) 0) :=
  getOverview_single_flight_amended.2 1

/-- C2 counterexample: after a successful fetch of overview A, a refresh
fetch that fails replaces the cache slot; the later non-refresh getOverview
call awaits the REJECTED promise 1, not the previously cached overview, so
stale data is not served as the claim states. -/
theorem failed_refresh_discards_cached_overview_cex :
    (let s1 := (getOverviewStep initialOvState false).1
     let s2 := resolveOverviewFetch s1 0 (some { owner := "A", online := ["B"] })
     let s3 := (getOverviewStep s2 true).1
     let s4 := resolveOverviewFetch s3 1 none
     (getOverviewStep s4 false).2 = 1 ∧
     observeOverview s4 1 = PromiseState.rejected ∧
     observeOverview s4 0 = PromiseState.resolved { owner := "A", online := ["B"] } ∧
     observeOverview s4 ((getOverviewStep s4 false).2) ≠
       PromiseState.resolved { owner := "A", online := ["B"] }) := by decide

/-- C2 (amended): when an overview was previously fetched successfully and a
later refresh fetch fails, the failure is reported to the callers awaiting
that fetch and no automatic retry occurs until the next refresh = true call;
but the failed promise replaces the cache slot, so later non-refresh
getOverview calls observe the cached failure rather than the previously
cached overview (the old successful promise survives only outside the
cache slot). -/
theorem failed_fetch_policy_amended (s : OvState) (q p : Nat) (o : OverviewVal)
    (hq : s.fetchPromises.get? q = some (PromiseState.resolved o))
    (hc : s.cacheOverview = some p)
    (hp : s.fetchPromises.get? p = some PromiseState.pending) :
    observeOverview (resolveOverviewFetch s p none) p = PromiseState.rejected ∧
    getOverviewStep (resolveOverviewFetch s p none) false =
      (resolveOverviewFetch s p none, p) ∧
    (resolveOverviewFetch s p none).fetchPromises.length =
      s.fetchPromises.length ∧
    (resolveOverviewFetch s p none).fetchPromises.get? q =
      some (PromiseState.resolved o) ∧
    p ≠ q := by
  have hne : p ≠ q := by
    intro hpq
    rw [hpq, hq] at hp
    exact PromiseState.noConfusion (Option.some.inj hp)
  have hres : resolveOverviewFetch s p none =
      { s with fetchPromises := s.fetchPromises.set p PromiseState.rejected } := by
    unfold resolveOverviewFetch
    rw [hp]
  have hplen : p < s.fetchPromises.length := by
    by_contra hlt
    rw [List.get?_eq_none.2 (Nat.le_of_not_lt hlt)] at hp
    exact Option.noConfusion hp
  refine ⟨?_, ?_, ?_, ?_, hne⟩
  · rw [hres]
    unfold observeOverview
    simp [List.getElem?_set_self, hplen]
  · rw [hres]
    unfold getOverviewStep
    rw [hc]
  · rw [hres]
    simp [List.length_set]
  · rw [hres]
    simpa [List.getElem?_set_ne hne] using hq

/-- C2 amended witness: a two-promise state with promise 0 resolved and the
cached promise 1 pending, whose rejection is then observed by later
non-refresh calls. -/
theorem failed_fetch_policy_amended_witness :
    (let s : OvState :=
      { cacheOverview := some 1
        fetchPromises := [PromiseState.resolved { owner := "A", online := [] },
          PromiseState.pending]
        online := []
        players := [] }
     observeOverview (resolveOverviewFetch s 1 none) 1 = PromiseState.rejected ∧
     getOverviewStep (resolveOverviewFetch s 1 none) false =
       (resolveOverviewFetch s 1 none, 1) ∧
     (resolveOverviewFetch s 1 none).fetchPromises.length =
       s.fetchPromises.length ∧
     (resolveOverviewFetch s 1 none).fetchPromises.get? 0 =
       some (PromiseState.resolved { owner := "A", online := [] }) ∧
     (1 : Nat) ≠ 0) :=
  failed_fetch_policy_amended
    { cacheOverview := some 1
      fetchPromises := [PromiseState.resolved { owner := "A", online := [] },
        PromiseState.pending]
      online := []
      players := [] } 0 1 { owner := "A", online := [] }
    (by decide) (by decide) (by decide)

/-- C5: setLists submits the shallow merge of the partial update over the
currently cached lists (lists absent from the partial are preserved), forces
a refresh so that a following getLists reflects the update, and on a failed
remote submission leaves the cached lists unchanged while the failure
propagates. -/
theorem setLists_merge_atomicity (cur server : WorldLists) (p : PartialLists)
    (a : List String) :
    setListsRun { cache := some cur, server := server } p false =
      ({ cache := some cur, server := server }, false) ∧
    setListsRun { cache := some cur, server := server } p true =
      ({ cache := some (mergeLists cur p), server := mergeLists cur p }, true) ∧
    (getListsRun (setListsRun { cache := some cur, server := server } p true).1).2 =
      mergeLists cur p ∧
    mergeLists cur
        { adminlist := some a, modlist := none, whitelist := none, blacklist := none } =
      { adminlist := a, modlist := cur.modlist, whitelist := cur.whitelist,
        blacklist := cur.blacklist } :=
  ⟨rfl, rfl, rfl, rfl⟩

/-- C6: a chat message of command shape whose token is registered
(case-insensitively) invokes exactly that handler with the argument
remainder, after the unconditional enriched message event; any message whose
token is unregistered, or without command shape, produces the enriched
message event alone. -/
theorem command_dispatch :
    (∀ (players : List (String × PlayerInfo)) (lists : WorldLists)
        (cmds : List (String × Nat)) (h : Nat) (name : String),
      alookup cmds "KICK" = some h →
      onMessageEffects players lists cmds name "/kick griefer" =
        [MsgEffect.enriched (getPlayer players lists name) "/kick griefer",
         MsgEffect.invoke h (getPlayer players lists name) "griefer"]) ∧
    (∀ (players : List (String × PlayerInfo)) (lists : WorldLists)
        (cmds : List (String × Nat)) (name message : String),
      parseCommand message = none →
      onMessageEffects players lists cmds name message =
        [MsgEffect.enriched (getPlayer players lists name) message]) ∧
    (∀ (players : List (String × PlayerInfo)) (lists : WorldLists)
        (cmds : List (String × Nat)) (name message tok args : String),
      parseCommand message = some (tok, args) →
      alookup cmds (canonName tok) = none →
      onMessageEffects players lists cmds name message =
        [MsgEffect.enriched (getPlayer players lists name) message]) := by
  refine ⟨?_, ?_, ?_⟩
  · intro players lists cmds h name hreg
    have hparse : parseCommand "/kick griefer" = some ("kick", "griefer") := by decide
    have hcanon : canonName "kick" = "KICK" := by decide
    unfold onMessageEffects
    rw [hparse]
    show MsgEffect.enriched (getPlayer players lists name) "/kick griefer" ::
        (match alookup cmds (canonName "kick") with
         | some h => [MsgEffect.invoke h (getPlayer players lists name) "griefer"]
         | none => []) = _
    rw [hcanon, hreg]
  · intro players lists cmds name message hnone
    unfold onMessageEffects
    rw [hnone]
  · intro players lists cmds name message tok args hparse hnone
    unfold onMessageEffects
    rw [hparse]
    show MsgEffect.enriched (getPlayer players lists name) message ::
        (match alookup cmds (canonName tok) with
         | some h => [MsgEffect.invoke h (getPlayer players lists name) args]
         | none => []) = _
    rw [hnone]

/-- C6 witness: with only KICK registered, /kick griefer invokes handler 7
with args griefer; /unknown x and plain chat produce only the enriched
message event. -/
theorem command_dispatch_witness :
    alookup [("KICK", 7)] "KICK" = some 7 ∧
    onMessageEffects [] defaultLists [("KICK", 7)] "bob" "/kick griefer" =
      [MsgEffect.enriched (getPlayer [] defaultLists "bob") "/kick griefer",
       MsgEffect.invoke 7 (getPlayer [] defaultLists "bob") "griefer"] ∧
    onMessageEffects [] defaultLists [("KICK", 7)] "bob" "/unknown x" =
      [MsgEffect.enriched (getPlayer [] defaultLists "bob") "/unknown x"] ∧
    onMessageEffects [] defaultLists [("KICK", 7)] "bob" "hello /kick" =
      [MsgEffect.enriched (getPlayer [] defaultLists "bob") "hello /kick"] :=
  ⟨by decide,
   command_dispatch.1 [] defaultLists [("KICK", 7)] 7 "bob" (by decide),
   command_dispatch.2.2 [] defaultLists [("KICK", 7)] "bob" "/unknown x" "unknown" "x"
     (by decide) (by decide),
   command_dispatch.2.1 [] defaultLists [("KICK", 7)] "bob" "hello /kick" (by decide)⟩

/-- C8 counterexample: the overview copy of world.ts line 116 is a shallow
spread, so the returned object shares the nested online array with the
cache; pushing into (here: emptying) the returned overview's online array
changes the overview a subsequent non-refresh getOverview returns. -/
theorem overview_shallow_copy_cex :
    (let σ : Store := [["ALICE"]]
     let cached : OverviewObj := { owner := "OWNER", online := 0 }
     let ret := copyOverviewObj cached
     let σ' := writeRef σ ret.online []
     readOverview σ cached = { owner := "OWNER", online := ["ALICE"] } ∧
     readOverview σ' cached = { owner := "OWNER", online := [] } ∧
     readOverview σ' cached ≠ readOverview σ cached) := by decide

/-- C8 (amended): getLists and getLogs return structural copies whose
arrays are freshly allocated, so mutating any returned array leaves the
value returned by a subsequent call for the same resource unchanged; the
value getOverview returns is a fresh top-level object, but its copy is
shallow: the nested online array reference is shared with the cached
overview, so mutating it does change subsequent reads. -/
theorem defensive_copies_amended (σ : Store) (l : ListsObj) (logs : Ref)
    (ha : l.adminlist < σ.length) (hm : l.modlist < σ.length)
    (hw : l.whitelist < σ.length) (hb : l.blacklist < σ.length)
    (hlg : logs < σ.length) :
    readLists (copyListsObj σ l).1 (copyListsObj σ l).2 = readLists σ l ∧
    (∀ v, readLists (writeRef (copyListsObj σ l).1
        ((copyListsObj σ l).2).adminlist v) l = readLists σ l) ∧
    (∀ v, readLists (writeRef (copyListsObj σ l).1
        ((copyListsObj σ l).2).modlist v) l = readLists σ l) ∧
    (∀ v, readLists (writeRef (copyListsObj σ l).1
        ((copyListsObj σ l).2).whitelist v) l = readLists σ l) ∧
    (∀ v, readLists (writeRef (copyListsObj σ l).1
        ((copyListsObj σ l).2).blacklist v) l = readLists σ l) ∧
    readRef (copyLogs σ logs).1 (copyLogs σ logs).2 = readRef σ logs ∧
    (∀ v, readRef (writeRef (copyLogs σ logs).1 (copyLogs σ logs).2 v) logs =
      readRef σ logs) ∧
    (∀ o : OverviewObj, (copyOverviewObj o).online = o.online) := by
  rw [copyListsObj_eq σ l hm hw hb]
  set ext : Store := [readRef σ l.adminlist, readRef σ l.modlist,
    readRef σ l.whitelist, readRef σ l.blacklist] with hext
  have hextlen : ext.length = 4 := by rw [hext]; rfl
  have hframe : ∀ i : Nat, ∀ v : List String,
      readLists (writeRef (σ ++ ext) (σ.length + i) v) l = readLists σ l := by
    intro i v
    have hgt : ∀ r : Ref, r < σ.length → σ.length + i ≠ r := fun r hr =>
      Nat.ne_of_gt (Nat.lt_of_lt_of_le hr (Nat.le_add_right _ _))
    rw [readLists_frame _ _ _ _ (hgt _ ha) (hgt _ hm) (hgt _ hw) (hgt _ hb)]
    exact readLists_append σ ext l ha hm hw hb
  have hplus0 : σ.length + 0 = σ.length := Nat.add_zero _
  refine ⟨?_, ?_, ?_, ?_, ?_, ?_, ?_, fun o => rfl⟩
  · show readLists (σ ++ ext)
      { adminlist := σ.length, modlist := σ.length + 1,
        whitelist := σ.length + 2, blacklist := σ.length + 3 } = readLists σ l
    unfold readLists
    have r0 : readRef (σ ++ ext) σ.length = readRef ext 0 := by
      rw [← hplus0]
      exact readRef_append_at σ ext 0
    have r1 : readRef (σ ++ ext) (σ.length + 1) = readRef ext 1 :=
      readRef_append_at σ ext 1
    have r2 : readRef (σ ++ ext) (σ.length + 2) = readRef ext 2 :=
      readRef_append_at σ ext 2
    have r3 : readRef (σ ++ ext) (σ.length + 3) = readRef ext 3 :=
      readRef_append_at σ ext 3
    rw [r0, r1, r2, r3, hext]
    rfl
  · intro v
    show readLists (writeRef (σ ++ ext) σ.length v) l = readLists σ l
    rw [← hplus0]
    exact hframe 0 v
  · exact fun v => hframe 1 v
  · exact fun v => hframe 2 v
  · exact fun v => hframe 3 v
  · show readRef (σ ++ [readRef σ logs]) σ.length = readRef σ logs
    simp [readRef, List.get?_eq_getElem?, List.getElem?_concat_length]
  · intro v
    show readRef (writeRef (σ ++ [readRef σ logs]) σ.length v) logs = readRef σ logs
    rw [readRef_writeRef_ne _ _ _ _ (Nat.ne_of_gt hlg)]
    exact readRef_append_lt _ _ _ hlg

/-- C8 amended witness: a five-array store holding the four cached lists and
the cached logs; copies are taken, one lists array and the logs array of the
copies are mutated, and the cached values are unchanged, while the overview
copy shares its online reference. -/
theorem defensive_copies_amended_witness :
    ((0 : Nat) < 5 ∧ (1 : Nat) < 5 ∧ (2 : Nat) < 5 ∧ (3 : Nat) < 5 ∧ (4 : Nat) < 5) ∧
    readLists (copyListsObj [["A"], ["M"], ["W"], ["B"], ["L"]]
        { adminlist := 0, modlist := 1, whitelist := 2, blacklist := 3 }).1
      (copyListsObj [["A"], ["M"], ["W"], ["B"], ["L"]]
        { adminlist := 0, modlist := 1, whitelist := 2, blacklist := 3 }).2 =
      readLists [["A"], ["M"], ["W"], ["B"], ["L"]]
        { adminlist := 0, modlist := 1, whitelist := 2, blacklist := 3 } ∧
    readLists (writeRef (copyListsObj [["A"], ["M"], ["W"], ["B"], ["L"]]
        { adminlist := 0, modlist := 1, whitelist := 2, blacklist := 3 }).1
        ((copyListsObj [["A"], ["M"], ["W"], ["B"], ["L"]]
          { adminlist := 0, modlist := 1, whitelist := 2, blacklist := 3 }).2).adminlist
        ["X"])
      { adminlist := 0, modlist := 1, whitelist := 2, blacklist := 3 } =
      readLists [["A"], ["M"], ["W"], ["B"], ["L"]]
        { adminlist := 0, modlist := 1, whitelist := 2, blacklist := 3 } ∧
    readRef (writeRef (copyLogs [["A"], ["M"], ["W"], ["B"], ["L"]] 4).1
        (copyLogs [["A"], ["M"], ["W"], ["B"], ["L"]] 4).2 ["X"]) 4 =
      readRef [["A"], ["M"], ["W"], ["B"], ["L"]] 4 ∧
    (copyOverviewObj { owner := "O", online := 0 }).online = 0 :=
  have H := defensive_copies_amended [["A"], ["M"], ["W"], ["B"], ["L"]]
    { adminlist := 0, modlist := 1, whitelist := 2, blacklist := 3 } 4
    (by decide) (by decide) (by decide) (by decide) (by decide)
  ⟨by decide, H.1, H.2.1 ["X"], H.2.2.2.2.2.2.1 ["X"],
   H.2.2.2.2.2.2.2 { owner := "O", online := 0 }⟩

/-- C10: the online accessor returns a freshly allocated array whose
contents equal the internal online array; the fresh reference is distinct
from the internal one, so mutating the returned array leaves the internal
online array, and hence every subsequent online read, unchanged. -/
theorem online_accessor_fresh_copy (σ : Store) (online : Ref)
    (h : online < σ.length) :
    readRef (onlineCopy σ online).1 (onlineCopy σ online).2 = readRef σ online ∧
    (onlineCopy σ online).2 ≠ online ∧
    ∀ v, readRef (writeRef (onlineCopy σ online).1 (onlineCopy σ online).2 v)
      online = readRef σ online := by
  refine ⟨?_, Nat.ne_of_gt h, ?_⟩
  · show readRef (σ ++ [readRef σ online]) σ.length = readRef σ online
    simp [readRef, List.get?_eq_getElem?, List.getElem?_concat_length]
  · intro v
    show readRef (writeRef (σ ++ [readRef σ online]) σ.length v) online =
      readRef σ online
    rw [readRef_writeRef_ne _ _ _ _ (Nat.ne_of_gt h)]
    exact readRef_append_lt _ _ _ h

/-- C10 witness: a one-array store; the copy reads back the same contents,
is a distinct reference, and emptying the copy leaves the internal array
unchanged. -/
theorem online_accessor_fresh_copy_witness :
    (0 : Nat) < 1 ∧
    readRef (onlineCopy [["ALICE"]] 0).1 (onlineCopy [["ALICE"]] 0).2 =
      readRef [["ALICE"]] 0 ∧
    (onlineCopy [["ALICE"]] 0).2 ≠ 0 ∧
    readRef (writeRef (onlineCopy [["ALICE"]] 0).1 (onlineCopy [["ALICE"]] 0).2 []) 0 =
      readRef [["ALICE"]] 0 :=
  have H := online_accessor_fresh_copy [["ALICE"]] 0 (by decide)
  ⟨by decide, H.1, H.2.1, H.2.2 []⟩

end World
